import Mathlib

/-!
Shallow embedding of the dj-newswire feed-aggregation pipeline.

The repository has two near-duplicate scripts:
* variant A (`src/unnamed/part_000`): ingestion, entity-decoding URL
  normalisation, a per-source "discos" category filter, a junk-image filter,
  bounded-concurrency page enrichment, and a re-sort;
* variant B (`src/scripts/build-feeds.mjs`): ingestion and a single sort,
  with no enrichment, no entity decoding, no junk-image filter and no
  per-source category filter.

JavaScript strings are modelled as Lean `String` (a list of characters);
`s.length`, `s.slice(0, n)`, `s.trim()`, `s.toLowerCase()` are modelled by
`jsLen`, `jsSlice`, `jsTrim`, `jsToLower` over `String.data`.  Host
collaborators that are not part of the repository (the WHATWG `URL`
constructor and the sha1 digest) are passed in as a `Host` record of
functions; `Date.parse` is modelled executably by `jsDateParse` on the
timezone-independent slice of the ECMAScript Date Time String Format
(`YYYY-MM-DD` with optional `THH:MM:SS[.sss]` plus a mandatory `Z`/`±HH:MM`
offset); every other shape parses to `none` (unparseable).  Network fetches
are oracles: a feed fetch+parse yields `Except String ParsedFeed`, an
article-page fetch yields `Option String` (`none` = timeout / abort /
non-success status / rejection).
-/

/-- Characters treated as whitespace by the JavaScript string functions
(`trim`, `\s`); this models the common subset actually hit by feed data. -/
def isWsChar (c : Char) : Bool :=
  c == ' ' || c == '\t' || c == '\n' || c == '\r' || c == '\x0b' || c == '\x0c' ||
  c == ' ' || c == '﻿'

/-- Model of JavaScript `String.prototype.length` (units of the underlying
character list). -/
def jsLen (s : String) : Nat := s.data.length

/-- Model of JavaScript `s.slice(0, n)`. -/
def jsSlice (s : String) (n : Nat) : String := ⟨s.data.take n⟩

/-- Model of JavaScript `s.trim()`. -/
def jsTrim (s : String) : String :=
  ⟨((s.data.dropWhile isWsChar).reverse.dropWhile isWsChar).reverse⟩

/-- Model of JavaScript `s.toLowerCase()`. -/
def jsToLower (s : String) : String := ⟨s.data.map Char.toLower⟩

/-- Coerce an optional field to a string the way the scripts' `x || ""`
chains do (an absent field and the empty string behave identically there). -/
def optS : Option String → String
  | some s => s
  | none => ""

/-- JavaScript `a || b` on strings: the empty string is falsy. -/
def strOr (a b : String) : String := if a = "" then b else a

/-- Test whether `pat` occurs at the head of `hay`. -/
def matchesPre : List Char → List Char → Bool
  | [], _ => true
  | _ :: _, [] => false
  | p :: ps, h :: hs => p == h && matchesPre ps hs

/-- Model of JavaScript `hay.includes(pat)` (substring containment). -/
def occursIn (pat : List Char) : List Char → Bool
  | [] => pat.isEmpty
  | c :: rest => matchesPre pat (c :: rest) || occursIn pat rest

/-- Case-insensitive version of `matchesPre`, for the `/i` regex flags. -/
def matchesCI : List Char → List Char → Bool
  | [], _ => true
  | _ :: _, [] => false
  | p :: ps, h :: hs => p.toLower == h.toLower && matchesCI ps hs

/-- Numeric value of an ASCII digit. -/
def digitVal (c : Char) : Option Nat :=
  if '0' ≤ c ∧ c ≤ '9' then some (c.toNat - 48) else none

/-- Parse exactly two ASCII digits. -/
def p2 : List Char → Option (Nat × List Char)
  | a :: b :: rest =>
    match digitVal a, digitVal b with
    | some x, some y => some (x * 10 + y, rest)
    | _, _ => none
  | _ => none

/-- Parse exactly three ASCII digits. -/
def p3 : List Char → Option (Nat × List Char)
  | a :: b :: c :: rest =>
    match digitVal a, digitVal b, digitVal c with
    | some x, some y, some z => some (x * 100 + y * 10 + z, rest)
    | _, _, _ => none
  | _ => none

/-- Parse exactly four ASCII digits. -/
def p4 : List Char → Option (Nat × List Char)
  | a :: b :: c :: d :: rest =>
    match digitVal a, digitVal b, digitVal c, digitVal d with
    | some w, some x, some y, some z => some (w * 1000 + x * 100 + y * 10 + z, rest)
    | _, _, _, _ => none
  | _ => none

/-- Parse one expected character. -/
def pChar (ch : Char) : List Char → Option (List Char)
  | c :: rest => if c == ch then some rest else none
  | [] => none

/-- Gregorian leap-year test. -/
def isLeap (y : Nat) : Bool :=
  (y % 4 == 0 && y % 100 != 0) || y % 400 == 0

/-- Number of days in a month. -/
def daysInMonth (y m : Nat) : Nat :=
  if m = 2 then (if isLeap y then 29 else 28)
  else if m = 4 ∨ m = 6 ∨ m = 9 ∨ m = 11 then 30
  else 31

/-- Days from the Unix epoch (1970-01-01) to the civil date `y-m-d`
(negative for earlier dates); the standard era-based civil-calendar
computation, restricted to `y ≥ 1600` so all auxiliary arithmetic stays in
`Nat`. -/
def daysSinceEpoch (y m d : Nat) : Int :=
  let yy := if m ≤ 2 then y - 1 else y
  let era := yy / 400
  let yoe := yy % 400
  let mp := (m + 9) % 12
  let doy := (153 * mp + 2) / 5 + (d - 1)
  let doe := yoe * 365 + yoe / 4 - yoe / 100 + doy
  ((era * 146097 + doe : Nat) : Int) - 719468

/-- Parse an optional `:SS` / `:SS.sss` seconds part, in milliseconds. -/
def parseSecFrac (cs : List Char) : Option (Nat × List Char) :=
  match cs with
  | ':' :: rest =>
    match p2 rest with
    | none => none
    | some (se, cs2) =>
      if 59 < se then none
      else
        match cs2 with
        | '.' :: rest2 =>
          match p3 rest2 with
          | none => none
          | some (ms, cs3) => some (se * 1000 + ms, cs3)
        | _ => some (se * 1000, cs2)
  | _ => some (0, cs)

/-- Parse a timezone offset `Z` / `+HH:MM` / `-HH:MM`, in milliseconds. -/
def parseOffset (cs : List Char) : Option (Int × List Char) :=
  match cs with
  | 'Z' :: rest => some (0, rest)
  | '+' :: rest =>
    match p2 rest with
    | some (h, cs1) =>
      match pChar ':' cs1 with
      | some cs2 =>
        match p2 cs2 with
        | some (m, cs3) =>
          if 23 < h ∨ 59 < m then none
          else some (((h * 60 + m) * 60000 : Nat), cs3)
        | none => none
      | none => none
    | none => none
  | '-' :: rest =>
    match p2 rest with
    | some (h, cs1) =>
      match pChar ':' cs1 with
      | some cs2 =>
        match p2 cs2 with
        | some (m, cs3) =>
          if 23 < h ∨ 59 < m then none
          else some (-(((h * 60 + m) * 60000 : Nat) : Int), cs3)
        | none => none
      | none => none
    | none => none
  | _ => none

/-- Parse the time-of-day and offset after the `T`, in epoch-relative
milliseconds. -/
def parseTimePart (cs : List Char) : Option Int :=
  match p2 cs with
  | none => none
  | some (h, cs1) =>
    if 23 < h then none
    else
      match pChar ':' cs1 with
      | none => none
      | some cs2 =>
        match p2 cs2 with
        | none => none
        | some (mi, cs3) =>
          if 59 < mi then none
          else
            match parseSecFrac cs3 with
            | none => none
            | some (secms, cs4) =>
              match parseOffset cs4 with
              | none => none
              | some (off, cs5) =>
                if cs5 = [] then
                  some ((h * 3600000 + mi * 60000 + secms : Nat) - off)
                else none

/-- Executable model of the host `Date.parse`, on the timezone-independent
slice of the ECMAScript Date Time String Format: `YYYY-MM-DD` (parsed as
UTC midnight) optionally followed by `THH:MM[:SS[.sss]]` with a mandatory
`Z` or `±HH:MM` offset.  Years below 1600 and every other shape are outside
the model and return `none` (in the scripts' data flow, `none` corresponds
to `NaN`). -/
def jsDateParse (s : String) : Option Int :=
  match p4 s.data with
  | none => none
  | some (y, cs1) =>
    if y < 1600 then none
    else
      match pChar '-' cs1 with
      | none => none
      | some cs2 =>
        match p2 cs2 with
        | none => none
        | some (mo, cs3) =>
          if mo < 1 ∨ 12 < mo then none
          else
            match pChar '-' cs3 with
            | none => none
            | some cs4 =>
              match p2 cs4 with
              | none => none
              | some (d, cs5) =>
                if d < 1 ∨ daysInMonth y mo < d then none
                else
                  let dayMs : Int := daysSinceEpoch y mo d * 86400000
                  match cs5 with
                  | [] => some dayMs
                  | 'T' :: cs6 =>
                    match parseTimePart cs6 with
                    | none => none
                    | some t => some (dayMs + t)
                  | _ => none

/-- Embedding of `toTimestamp` (identical in both variants):
`const t = Date.parse(dateStr || ""); return Number.isFinite(t) ? t : 0;`.
A parse failure (`NaN`, i.e. `none`) becomes `0`; a successful parse is
returned unclamped. -/
def toTimestamp (dateStr : String) : Int :=
  match jsDateParse dateStr with
  | some t => t
  | none => 0

example : toTimestamp "1970-01-01" = 0 := by decide
example : toTimestamp "1969-12-31" = -86400000 := by decide
example : toTimestamp "1970-01-02" = 86400000 := by decide
example : toTimestamp "" = 0 := by decide
example : toTimestamp "2024-01-01T00:00:00Z" = 1704067200000 := by decide

/-- One configured feed source (`feeds.json` entry): `{id, name, url}`. -/
structure FeedSource where
  id : String
  name : String
  url : String
deriving DecidableEq, Repr

/-- A `media:content` / `media:thumbnail` value as produced by `rss-parser`:
the `$.url` attribute and/or a plain `url` property. -/
structure MediaRef where
  attrUrl : Option String := none
  url : Option String := none
deriving DecidableEq, Repr

/-- The `categories` / `category` fields can be absent, a single scalar, or
an array; note that a present empty array is truthy in JavaScript. -/
inductive JsCats
  | absent
  | scalar (s : String)
  | arr (l : List String)
deriving DecidableEq, Repr

/-- JavaScript truthiness of a `JsCats` value. -/
def JsCats.truthy : JsCats → Bool
  | .absent => false
  | .scalar s => s != ""
  | .arr _ => true

/-- A raw parsed feed item as produced by `rss-parser` with the scripts'
`customFields` configuration; only the fields the scripts read are
modelled, each optional. -/
structure RawItem where
  title : Option String := none
  link : Option String := none
  guid : Option String := none
  isoDate : Option String := none
  pubDate : Option String := none
  published : Option String := none
  mediaContent : Option MediaRef := none
  mediaThumbnail : Option MediaRef := none
  enclosureUrl : Option String := none
  contentEncoded : Option String := none
  contentEncodedColon : Option String := none
  content : Option String := none
  summary : Option String := none
  categories : JsCats := .absent
  category : JsCats := .absent
deriving DecidableEq, Repr

/-- Result of `parser.parseString`: `parsed.items` may be absent
(`parsed.items || []`). -/
structure ParsedFeed where
  items : Option (List RawItem) := none
deriving DecidableEq, Repr

/-- The canonical output record built by both scripts. -/
structure NewsItem where
  id : String
  title : String
  link : String
  published : String
  publishedTs : Int
  sourceId : String
  sourceName : String
  categories : List String
  image : String
  excerpt : String
deriving DecidableEq, Repr

/-- One per-feed ingestion failure record. -/
structure IngestError where
  sourceId : String
  sourceName : String
  url : String
  error : String
deriving DecidableEq, Repr

/-- Host collaborators external to the repository: `urlParse u` models
`new URL(u).toString()` (`none` = the constructor throws), `urlResolve u b`
models `new URL(u, b).toString()`, and `sha1` the hex digest. -/
structure Host where
  urlParse : String → Option String
  urlResolve : String → String → Option String
  sha1 : String → String

/-- Global replace of a non-empty literal pattern (the semantics of
JavaScript `s.replace(/lit/g, rep)`: left to right, non-overlapping, the
replacement is not rescanned). -/
def replaceAll (pat rep : List Char) : Nat → List Char → List Char
  | 0, _ => []
  | _, [] => []
  | fuel + 1, c :: rest =>
    if !pat.isEmpty && matchesPre pat (c :: rest)
    then rep ++ replaceAll pat rep fuel ((c :: rest).drop pat.length)
    else c :: replaceAll pat rep fuel rest

/-- Embedding of variant A's `decodeUrlEntities`: three successive global
replaces, `&amp;` then `&#038;` then the case-insensitive `&#x26;`. -/
def replaceX26 : Nat → List Char → List Char
  | 0, _ => []
  | _, [] => []
  | fuel + 1, c :: rest =>
    if c == '&' && (matchesPre ['#', 'x', '2', '6', ';'] rest || matchesPre ['#', 'X', '2', '6', ';'] rest)
    then '&' :: replaceX26 fuel (rest.drop 5)
    else c :: replaceX26 fuel rest

/-- Embedding of `decodeUrlEntities` (variant A only). -/
def decodeUrlEntities (u : String) : String :=
  let s1 := replaceAll "&amp;".data "&".data u.data.length u.data
  let s2 := replaceAll "&#038;".data "&".data s1.length s1
  ⟨replaceX26 s2.length s2⟩

/-- Embedding of variant A's `normalizeUrl`: trim, decode entities, try the
URL constructor, and fall back to the cleaned string. -/
def normalizeUrlA (h : Host) (u : String) : String :=
  match h.urlParse (decodeUrlEntities (jsTrim u)) with
  | some s => s
  | none => decodeUrlEntities (jsTrim u)

/-- Embedding of variant B's `normalizeUrl`: try the URL constructor on the
raw string and fall back to the trimmed string. -/
def normalizeUrlB (h : Host) (u : String) : String :=
  match h.urlParse u with
  | some s => s
  | none => jsTrim u

/-- Embedding of `isJunkImage` (variant A only): a lowercase substring test
against the emoji-sprite blocklist. -/
def isJunkImage (url : String) : Bool :=
  occursIn "s.w.org/images/core/emoji".data (jsToLower url).data

/-- Embedding of `pickCategories` (identical in both variants). -/
def pickCategories (it : RawItem) : List String :=
  let raw := if it.categories.truthy then it.categories
             else if it.category.truthy then it.category
             else .arr []
  let arrL := match raw with
    | .arr l => l
    | .scalar s => [s]
    | .absent => [""]
  ((arrL.map jsTrim).filter (fun c => c ≠ "")).take 12

/-- The `contentEncoded || item["content:encoded"] || content || summary || ""`
fallback chain shared by `pickImage` and `pickExcerpt`. -/
def htmlOf (it : RawItem) : String :=
  strOr (optS it.contentEncoded)
    (strOr (optS it.contentEncodedColon) (strOr (optS it.content) (optS it.summary)))

/-- The `$.url` attribute of `media:content`, as a string (`""` = absent). -/
def mcAttr (it : RawItem) : String := optS (it.mediaContent.bind MediaRef.attrUrl)

/-- The plain `url` property of `media:content`. -/
def mcUrl (it : RawItem) : Option String := it.mediaContent.bind MediaRef.url

/-- The `$.url` attribute of `media:thumbnail`. -/
def mtAttr (it : RawItem) : String := optS (it.mediaThumbnail.bind MediaRef.attrUrl)

/-- The plain `url` property of `media:thumbnail`. -/
def mtUrl (it : RawItem) : Option String := it.mediaThumbnail.bind MediaRef.url

/-- Scanner for the regex `/<img[^>]+src=["']([^"']+)["']/i`: after a
case-insensitive `<img`, the greedy `[^>]+` backtracks to the rightmost
`src=` inside the run of non-`>` characters that is followed by a quote, a
non-empty quote-free capture and a closing quote. -/
def isQuote (c : Char) : Bool := c == '"' || c == '\''

/-- Try the `src=["']([^"']+)["']` tail at offset `q` (counted down) of the
non-`>` run `tail`; `q + 4` characters of `tail` are consumed before the
quote. -/
def tryImgAt (tail : List Char) : Nat → Option String
  | 0 => none
  | q + 1 =>
    (if matchesCI "src=".data (tail.drop (q + 1)) then
      match tail.drop (q + 5) with
      | qc :: rest2 =>
        if isQuote qc then
          let cap := rest2.takeWhile (fun ch => !(isQuote ch))
          if cap ≠ [] then
            match rest2.drop cap.length with
            | qc2 :: _ => if isQuote qc2 then some ⟨cap⟩ else none
            | [] => none
          else none
        else none
      | [] => none
    else none).orElse (fun _ => tryImgAt tail q)

/-- Attempt an `<img ... src="...">` match with the `<img` already consumed. -/
def tryImg (tail : List Char) : Option String :=
  let run := tail.takeWhile (fun ch => ch ≠ '>')
  tryImgAt tail run.length

/-- Scan for the first matching `<img` occurrence. -/
def fihGo : Nat → List Char → String
  | 0, _ => ""
  | _, [] => ""
  | fuel + 1, c :: rest =>
    if matchesCI "<img".data (c :: rest) then
      match tryImg ((c :: rest).drop 4) with
      | some s => s
      | none => fihGo fuel rest
    else fihGo fuel rest

/-- Embedding of `firstImageFromHtml` (identical in both variants). -/
def firstImageFromHtml (html : String) : String :=
  fihGo html.data.length html.data

/-- Drop everything up to and including the first `>`. -/
def dropThroughGt : List Char → Option (List Char)
  | [] => none
  | c :: rest => if c == '>' then some rest else dropThroughGt rest

/-- Drop everything up to and including the first case-insensitive
occurrence of `pat`. -/
def dropThroughCI (pat : List Char) : List Char → Option (List Char)
  | [] => if pat.isEmpty then some [] else none
  | c :: rest =>
    if matchesCI pat (c :: rest) then some ((c :: rest).drop pat.length)
    else dropThroughCI pat rest

/-- Scanner for the global lazy block regexes
`/<script[\s\S]*?>[\s\S]*?<\/script>/gi` (and the `style` twin): at a
case-insensitive `<script` the match runs to the first `>` and then to the
first `</script>`; on failure the character is kept and scanning resumes at
the next position. -/
def removeBlocksGo (openTag closeTag : List Char) : Nat → List Char → List Char
  | 0, _ => []
  | _, [] => []
  | fuel + 1, c :: rest =>
    if matchesCI openTag (c :: rest) then
      match dropThroughGt ((c :: rest).drop openTag.length) with
      | some afterGt =>
        match dropThroughCI closeTag afterGt with
        | some afterClose => removeBlocksGo openTag closeTag fuel afterClose
        | none => c :: removeBlocksGo openTag closeTag fuel rest
      | none => c :: removeBlocksGo openTag closeTag fuel rest
    else c :: removeBlocksGo openTag closeTag fuel rest

/-- Scanner for `/<\/?[^>]+>/g → " "`: a `<` followed by at least one
non-`>` character and a `>` is replaced (whole match) by one space. -/
def replaceTagsGo : Nat → List Char → List Char
  | 0, _ => []
  | _, [] => []
  | fuel + 1, c :: rest =>
    if c == '<' then
      let seg := rest.takeWhile (fun ch => ch ≠ '>')
      if seg ≠ [] ∧ seg.length < rest.length then
        ' ' :: replaceTagsGo fuel (rest.drop (seg.length + 1))
      else c :: replaceTagsGo fuel rest
    else c :: replaceTagsGo fuel rest

/-- Scanner for `/\s+/g → " "`. -/
def collapseWsGo : Nat → List Char → List Char
  | 0, _ => []
  | _, [] => []
  | fuel + 1, c :: rest =>
    if isWsChar c then ' ' :: collapseWsGo fuel (rest.dropWhile isWsChar)
    else c :: collapseWsGo fuel rest

/-- Embedding of `stripHtml` (identical in both variants): remove
script/style blocks, replace remaining tags by spaces, collapse whitespace
and trim. -/
def stripHtml (html : String) : String :=
  let s1 := removeBlocksGo "<script".data "</script>".data html.data.length html.data
  let s2 := removeBlocksGo "<style".data "</style>".data s1.length s1
  let s3 := replaceTagsGo s2.length s2
  let s4 := collapseWsGo s3.length s3
  jsTrim ⟨s4⟩

/-- Embedding of `pickExcerpt` (identical in both variants). -/
def pickExcerpt (it : RawItem) : String :=
  if stripHtml (htmlOf it) = "" then ""
  else if 240 < jsLen (stripHtml (htmlOf it)) then jsSlice (stripHtml (htmlOf it)) 237 ++ "…"
  else stripHtml (htmlOf it)

/-- The pre-normalisation image candidate selected by `pickImage`'s fallback
chain; none of the branch conditions involve the URL normaliser, so the
candidate is variant-independent. -/
def pickImageCand (it : RawItem) : Option String :=
  if mcAttr it ≠ "" then some (mcAttr it)
  else if (mcUrl it).isSome then some (optS (mcUrl it))
  else if mtAttr it ≠ "" then some (mtAttr it)
  else if (mtUrl it).isSome then some (optS (mtUrl it))
  else if optS it.enclosureUrl ≠ "" then some (optS it.enclosureUrl)
  else if firstImageFromHtml (htmlOf it) ≠ "" then some (firstImageFromHtml (htmlOf it))
  else none

/-- Embedding of `pickImage`, parametrised by the variant's `normalizeUrl`
(the only difference between the two copies): `media:content` `$.url`
(truthy test), `media:content.url` (`typeof === "string"` test, so even the
empty string is taken), the `media:thumbnail` twins, `enclosure.url`
(truthy), then the first `<img src>` of the content HTML. -/
def pickImage (norm : String → String) (it : RawItem) : String :=
  if mcAttr it ≠ "" then norm (mcAttr it)
  else if (mcUrl it).isSome then norm (optS (mcUrl it))
  else if mtAttr it ≠ "" then norm (mtAttr it)
  else if (mtUrl it).isSome then norm (optS (mtUrl it))
  else if optS it.enclosureUrl ≠ "" then norm (optS it.enclosureUrl)
  else if firstImageFromHtml (htmlOf it) ≠ "" then norm (firstImageFromHtml (htmlOf it))
  else ""

theorem pickImage_eq_cand (norm : String → String) (it : RawItem) :
    pickImage norm it = match pickImageCand it with
      | some c => norm c
      | none => "" := by
  unfold pickImage pickImageCand
  repeat' split
  all_goals simp_all

/-- Scanner step for the attribute part of the `extractMeta` regex
`(?:property|name)=["']KEY["']`, searched inside the run of non-`>`
characters after `<meta` (the regex's `[^>]+` guarantees at least one
preceding character, which the caller consumes); returns the remainder
after the closing quote. -/
def tryAttrAt (key : List Char) : Nat → List Char → Option (List Char)
  | 0, _ => none
  | _, [] => none
  | fuel + 1, c :: rest =>
    if c == '>' then none
    else if matchesCI "property=".data (c :: rest) || matchesCI "name=".data (c :: rest) then
      let after := if matchesCI "property=".data (c :: rest)
                   then (c :: rest).drop 9 else (c :: rest).drop 5
      match after with
      | q :: rest2 =>
        if isQuote q && matchesCI key rest2 then
          match rest2.drop key.length with
          | q2 :: rest3 => if isQuote q2 then some rest3 else tryAttrAt key fuel rest
          | [] => none
        else tryAttrAt key fuel rest
      | [] => none
    else tryAttrAt key fuel rest

/-- Whether a `>` occurs somewhere (for the regex's trailing `[^>]*>`). -/
def hasGt (l : List Char) : Bool := l.any (fun c => c == '>')

/-- Scanner step for the `content=["']([^"']+)["'][^>]*>` part (again with
at least one preceding non-`>` character consumed by the caller). -/
def tryContentAt : Nat → List Char → Option String
  | 0, _ => none
  | _, [] => none
  | fuel + 1, c :: rest =>
    if c == '>' then none
    else if matchesCI "content=".data (c :: rest) then
      match (c :: rest).drop 8 with
      | q :: rest2 =>
        if isQuote q then
          let cap := rest2.takeWhile (fun ch => !(isQuote ch))
          if cap ≠ [] then
            match rest2.drop cap.length with
            | q2 :: rest3 =>
              if isQuote q2 && hasGt rest3 then some ⟨cap⟩ else tryContentAt fuel rest
            | [] => tryContentAt fuel rest
          else tryContentAt fuel rest
        else tryContentAt fuel rest
      | [] => none
    else tryContentAt fuel rest

/-- Attempt one `<meta ...>` match with the `<meta` already consumed. -/
def emTry (key : List Char) (cs : List Char) : Option String :=
  match cs with
  | [] => none
  | c :: rest =>
    if c == '>' then none
    else
      match tryAttrAt key rest.length rest with
      | none => none
      | some rest3 =>
        match rest3 with
        | [] => none
        | d :: rest4 => if d == '>' then none else tryContentAt rest4.length rest4

/-- Scan for the first matching `<meta` occurrence. -/
def emScan (key : List Char) : Nat → List Char → String
  | 0, _ => ""
  | _, [] => ""
  | fuel + 1, c :: rest =>
    if matchesCI "<meta".data (c :: rest) then
      match emTry key ((c :: rest).drop 5) with
      | some s => s
      | none => emScan key fuel rest
    else emScan key fuel rest

/-- Embedding of `extractMeta` (variant A only): scanner for the regex
`<meta[^>]+(?:property|name)=["']KEY["'][^>]+content=["']([^"']+)["'][^>]*>`
built with the `i` flag. -/
def extractMeta (html key : String) : String :=
  emScan key.data html.data.length html.data

/-- Embedding of `absolutizeMaybe` (variant A only): normalise, then resolve
against the page URL, falling back to the normalised string if the URL
constructor throws. -/
def absolutizeMaybe (h : Host) (relativeOrAbs pageUrl : String) : String :=
  let u := normalizeUrlA h relativeOrAbs
  if u = "" then ""
  else
    match h.urlResolve u pageUrl with
    | some s => s
    | none => u

/-- The `og:image` fallback chain of `enrichOne`'s image branch. -/
def ogImageOf (html : String) : String :=
  strOr (extractMeta html "og:image")
    (strOr (extractMeta html "og:image:url")
      (strOr (extractMeta html "twitter:image") (extractMeta html "twitter:image:src")))

/-- The publish-date fallback chain of `enrichOne`'s date branch. -/
def ptimeOf (html : String) : String :=
  strOr (extractMeta html "article:published_time")
    (strOr (extractMeta html "og:updated_time") (extractMeta html "article:modified_time"))

/-- The image part of `enrichOne`'s page handling (`enrichOne` itself is
below; the article-page fetch is an oracle `fetchPage : String → Option
String` where `none` models every failure mode of `fetchText` —
timeout/abort, non-success status, rejection — which the source's
`try/catch` swallows, keeping the original item). -/
def enrichImage (h : Host) (html : String) (item : NewsItem) : NewsItem :=
  if absolutizeMaybe h (ogImageOf html) item.link != "" &&
      !(isJunkImage (absolutizeMaybe h (ogImageOf html) item.link))
  then { item with image := absolutizeMaybe h (ogImageOf html) item.link }
  else item

/-- The date part of `enrichOne`'s page handling: both `published` and
`publishedTs` are updated together when the extracted date parses to a
truthy (non-zero) timestamp. -/
def enrichDate (html : String) (item1 : NewsItem) : NewsItem :=
  if toTimestamp (ptimeOf html) != 0
  then { item1 with published := ptimeOf html, publishedTs := toTimestamp (ptimeOf html) }
  else item1

/-- The body of `enrichOne` once the page HTML is available. -/
def enrichWith (h : Host) (ni nd : Bool) (html : String) (item : NewsItem) : NewsItem :=
  if nd then enrichDate html (if ni then enrichImage h html item else item)
  else (if ni then enrichImage h html item else item)

/-- The `needsImage` test of `enrichOne`: `!item.image || isJunkImage(item.image)`. -/
def needsImageOf (item : NewsItem) : Bool := item.image == "" || isJunkImage item.image

/-- The `needsDate` test of `enrichOne`: `!item.publishedTs || item.publishedTs === 0`
(for an integer timestamp both disjuncts mean `publishedTs = 0`). -/
def needsDateOf (item : NewsItem) : Bool := item.publishedTs == 0

/-- Top of `enrichOne`: the needs-nothing early return and the
`try { fetchText } catch` around the page handling. -/
def enrichOne (h : Host) (fetchPage : String → Option String) (item : NewsItem) : NewsItem :=
  if !needsImageOf item && !needsDateOf item then item
  else
    match fetchPage item.link with
    | none => item
    | some html => enrichWith h (needsImageOf item) (needsDateOf item) html item

/-- Embedding of `asyncPool`'s value semantics (variant A only): each
iteration pushes the promise of `fn item` onto `ret` in input order and
`Promise.all` resolves positionally, so the returned list is the in-order
image of the input; the `limit` only shapes the scheduling, which is
modelled separately by `asyncPoolInflight`. -/
def asyncPool (limit : Nat) (arr : List α) (fn : α → β) : List β :=
  let _ := limit
  arr.foldl (fun acc item => acc ++ [fn item]) []

/-- Scheduling model of `asyncPool`: the trace of the number of
created-but-not-completed tasks, recorded after each task creation.  Each
loop iteration creates one task (`ret.push(p)`); when the throttle is armed
(`limit <= arr.length` in the source, the `throttle` flag here) and the
in-flight count has reached `limit`, the loop awaits `Promise.race`, after
which between 1 and all of the in-flight tasks have completed and spliced
themselves out — the adversarial schedule `sched i` chooses how many. -/
def asyncPoolInflight (limit : Nat) (throttle : Bool) (sched : Nat → Nat) : Nat → Nat → Nat → List Nat
  | 0, _, _ => []
  | k + 1, i, c =>
    let c1 := c + 1
    let c2 := if throttle && decide (limit ≤ c1) then c1 - min c1 (max (sched i) 1) else c1
    c1 :: asyncPoolInflight limit throttle sched k (i + 1) c2

/-- In-flight trace of `asyncPool limit arr fn` for an input of length `n`
under completion schedule `sched`. -/
def asyncPoolTrace (limit n : Nat) (sched : Nat → Nat) : List Nat :=
  asyncPoolInflight limit (decide (limit ≤ n)) sched n 0 0

/-- Response shape seen by `fetchXml`: `ok`/`status`/`statusText`, and the
result of `await res.text().catch(() => "")` (`none` models a rejected
body read). -/
structure HttpResponse where
  ok : Bool
  status : Nat
  statusText : String
  bodyText : Option String
deriving DecidableEq, Repr

/-- Embedding of `fetchXml`'s status handling (identical in both variants):
on a non-success status the error message carries a body snippet truncated
by `body.slice(0, 160)`. -/
def fetchXml (url : String) (res : HttpResponse) : Except String String :=
  if res.ok then Except.ok (optS res.bodyText)
  else
    let body := optS res.bodyText
    Except.error ("Fetch failed " ++ toString res.status ++ " " ++ res.statusText ++
      " for " ++ url ++ (if body = "" then "" else ": " ++ jsSlice body 160))

/-- The `isoDate || pubDate || published || ""` date-field fallback chain. -/
def pickPublished (it : RawItem) : String :=
  strOr (optS it.isoDate) (strOr (optS it.pubDate) (optS it.published))

/-- The canonical-link computation `normalizeUrl(it.link || it.guid || "")`
shared by both variants, with the variant's normaliser passed in. -/
def linkOf (h : Host) (norm : Host → String → String) (it : RawItem) : String :=
  norm h (strOr (optS it.link) (optS it.guid))

/-- The `NewsItem` record variant A pushes (junk images replaced by `""`). -/
def mkItemA (h : Host) (feed : FeedSource) (it : RawItem) : NewsItem :=
  { id := h.sha1 (feed.id ++ "|" ++ linkOf h normalizeUrlA it)
    title := jsTrim (optS it.title)
    link := linkOf h normalizeUrlA it
    published := pickPublished it
    publishedTs := toTimestamp (pickPublished it)
    sourceId := feed.id
    sourceName := feed.name
    categories := pickCategories it
    image := if isJunkImage (pickImage (normalizeUrlA h) it) then ""
             else pickImage (normalizeUrlA h) it
    excerpt := pickExcerpt it }

/-- Variant A's per-item ingestion body, continued: drop link-less items
and apply the `mondosonoro` "discos" inclusion filter (`none` models
`continue`). -/
def processRaw (h : Host) (feed : FeedSource) (it : RawItem) : Option NewsItem :=
  if linkOf h normalizeUrlA it = "" then none
  else if feed.id = "mondosonoro" ∧ ¬ (pickCategories it).any (fun c => jsToLower c = "discos")
  then none
  else some (mkItemA h feed it)

/-- The `NewsItem` record variant B pushes: no junk-image replacement. -/
def mkItemB (h : Host) (feed : FeedSource) (it : RawItem) : NewsItem :=
  { id := h.sha1 (feed.id ++ "|" ++ linkOf h normalizeUrlB it)
    title := jsTrim (optS it.title)
    link := linkOf h normalizeUrlB it
    published := pickPublished it
    publishedTs := toTimestamp (pickPublished it)
    sourceId := feed.id
    sourceName := feed.name
    categories := pickCategories it
    image := pickImage (normalizeUrlB h) it
    excerpt := pickExcerpt it }

/-- Variant B's per-item ingestion body, continued. -/
def processRawB (h : Host) (feed : FeedSource) (it : RawItem) : Option NewsItem :=
  if linkOf h normalizeUrlB it = "" then none
  else some (mkItemB h feed it)

/-- Variant A's ingestion loop over all feeds: one `IngestError` and zero
items for a feed whose fetch+parse oracle fails, the `filterMap` of
`processRaw` over `parsed.items || []` otherwise; items and errors keep
feed order. -/
def ingestAll (h : Host) (feedOracle : String → Except String ParsedFeed) :
    List FeedSource → List NewsItem × List IngestError
  | [] => ([], [])
  | f :: rest =>
    let tl := ingestAll h feedOracle rest
    match feedOracle f.url with
    | Except.error e => (tl.1, ⟨f.id, f.name, f.url, e⟩ :: tl.2)
    | Except.ok parsed => ((parsed.items.getD []).filterMap (processRaw h f) ++ tl.1, tl.2)

/-- Variant B's ingestion loop. -/
def ingestAllB (h : Host) (feedOracle : String → Except String ParsedFeed) :
    List FeedSource → List NewsItem × List IngestError
  | [] => ([], [])
  | f :: rest =>
    let tl := ingestAllB h feedOracle rest
    match feedOracle f.url with
    | Except.error e => (tl.1, ⟨f.id, f.name, f.url, e⟩ :: tl.2)
    | Except.ok parsed => ((parsed.items.getD []).filterMap (processRawB h f) ++ tl.1, tl.2)

/-- The `byLink` map loop: a `Map` keyed by `link`, insertion-ordered,
keeping only the first item per link. -/
def dedupeGo (seen : List String) : List NewsItem → List NewsItem
  | [] => []
  | it :: rest =>
    if it.link ∈ seen then dedupeGo seen rest
    else it :: dedupeGo (it.link :: seen) rest

/-- Embedding of the dedupe-by-link step (identical in both variants). -/
def dedupeByLink (l : List NewsItem) : List NewsItem := dedupeGo [] l

/-- Stable insertion of `x` in front of the first element whose
`publishedTs` is not strictly greater; used to model the stable JavaScript
`sort((a, b) => (b.publishedTs || 0) - (a.publishedTs || 0))` (for an `Int`
timestamp, `ts || 0` is `ts`). -/
def insertDesc (x : NewsItem) : List NewsItem → List NewsItem
  | [] => [x]
  | y :: ys =>
    if x.publishedTs < y.publishedTs then y :: insertDesc x ys
    else x :: y :: ys

/-- The stable descending sort by `publishedTs`: extensionally the unique
stable sort for the source's comparator, realised as insertion sort. -/
def sortByTsDesc : List NewsItem → List NewsItem
  | [] => []
  | x :: xs => insertDesc x (sortByTsDesc xs)

/-- Configuration constants of variant A. -/
def MAX_ITEMS : Nat := 200

/-- Enrichment head size of variant A. -/
def ENRICH_LIMIT : Nat := 120

/-- Enrichment fetch-pool cap of variant A. -/
def ENRICH_CONCURRENCY : Nat := 4

/-- Variant A's enrichment stage: the newest `ENRICH_LIMIT` items go through
`asyncPool`, the rest pass through untouched, preserving positions. -/
def enrichStage (h : Host) (fetchPage : String → Option String)
    (merged : List NewsItem) : List NewsItem :=
  asyncPool ENRICH_CONCURRENCY (merged.take ENRICH_LIMIT) (enrichOne h fetchPage) ++
    merged.drop ENRICH_LIMIT

/-- Variant A's whole pipeline (`main` of `src/unnamed/part_000`): ingest,
dedupe, sort, enrich the head, re-sort, truncate; returns the output items
and the error list of the payload. -/
def pipelineA (h : Host) (feedOracle : String → Except String ParsedFeed)
    (fetchPage : String → Option String) (feeds : List FeedSource) :
    List NewsItem × List IngestError :=
  ((sortByTsDesc (enrichStage h fetchPage
      (sortByTsDesc (dedupeByLink (ingestAll h feedOracle feeds).1)))).take MAX_ITEMS,
   (ingestAll h feedOracle feeds).2)

/-- Variant B's whole pipeline (`main` of `src/scripts/build-feeds.mjs`):
ingest, dedupe, sort, truncate (same `MAX_ITEMS = 200`). -/
def pipelineB (h : Host) (feedOracle : String → Except String ParsedFeed)
    (feeds : List FeedSource) : List NewsItem × List IngestError :=
  ((sortByTsDesc (dedupeByLink (ingestAllB h feedOracle feeds).1)).take MAX_ITEMS,
   (ingestAllB h feedOracle feeds).2)

example :
    extractMeta "<meta property=\"article:published_time\" content=\"1970-01-02\">"
      "article:published_time" = "1970-01-02" := by decide
example :
    extractMeta "<p>x</p><meta name=\"og:image\" content=\"https://x/a.jpg\">"
      "og:image" = "https://x/a.jpg" := by decide
example : extractMeta "<meta property=\"og:title\" content=\"t\">" "og:image" = "" := by decide
example : firstImageFromHtml "<p><img class=\"a\" src=\"https://i/x.png\"></p>" = "https://i/x.png" := by decide
example : firstImageFromHtml "<img>" = "" := by decide
example : stripHtml "<p>Hello <b>world</b></p><script>var x = 1;</script>!" = "Hello world !" := by decide
example : stripHtml "  a   b  " = "a b" := by decide
example : decodeUrlEntities "https://a?x=1&amp;y=2&#038;z=3&#X26;w=4" = "https://a?x=1&y=2&z=3&w=4" := by decide
example : isJunkImage "https://S.W.org/images/core/emoji/a.png" = true := by decide
example : isJunkImage "https://x/a.jpg" = false := by decide

/-- The descending-recency relation of the sort comparator. -/
def tsGe (a b : NewsItem) : Prop := b.publishedTs ≤ a.publishedTs

theorem asyncPool_foldl (fn : α → β) (acc : List β) (arr : List α) :
    arr.foldl (fun acc item => acc ++ [fn item]) acc = acc ++ arr.map fn := by
  induction arr generalizing acc with
  | nil => simp
  | cons x xs ih => simp [List.foldl, ih]

theorem asyncPool_eq_map (limit : Nat) (arr : List α) (fn : α → β) :
    asyncPool limit arr fn = arr.map fn := by
  simpa [asyncPool] using asyncPool_foldl fn [] arr

theorem insertDesc_perm (x : NewsItem) (l : List NewsItem) :
    List.Perm (insertDesc x l) (x :: l) := by
  induction l with
  | nil => exact List.Perm.refl _
  | cons y ys ih =>
    unfold insertDesc
    split
    · exact (ih.cons y).trans (List.Perm.swap x y ys)
    · exact List.Perm.refl _

theorem sortByTsDesc_perm (l : List NewsItem) : List.Perm (sortByTsDesc l) l := by
  induction l with
  | nil => exact List.Perm.refl _
  | cons x xs ih => exact (insertDesc_perm x _).trans (ih.cons x)

theorem insertDesc_pairwise {x : NewsItem} {l : List NewsItem}
    (h : l.Pairwise tsGe) : (insertDesc x l).Pairwise tsGe := by
  induction l with
  | nil => simp [insertDesc, tsGe]
  | cons y ys ih =>
    rcases List.pairwise_cons.mp h with ⟨hy, hys⟩
    unfold insertDesc
    split
    · rename_i hlt
      refine List.pairwise_cons.mpr ⟨?_, ih hys⟩
      intro b hb
      rcases List.mem_cons.mp ((insertDesc_perm x ys).mem_iff.mp hb) with hbx | hbys
      · exact hbx ▸ le_of_lt hlt
      · exact hy b hbys
    · rename_i hnlt
      have hyx : y.publishedTs ≤ x.publishedTs := not_lt.mp hnlt
      refine List.pairwise_cons.mpr ⟨?_, h⟩
      intro b hb
      rcases List.mem_cons.mp hb with hby | hbys
      · exact hby ▸ hyx
      · exact le_trans (hy b hbys) hyx

theorem sortByTsDesc_pairwise (l : List NewsItem) : (sortByTsDesc l).Pairwise tsGe := by
  induction l with
  | nil => simp [sortByTsDesc]
  | cons x xs ih => exact insertDesc_pairwise ih

theorem insertDesc_filter (x : NewsItem) (l : List NewsItem) (t : Int) :
    (insertDesc x l).filter (fun a => decide (a.publishedTs = t)) =
      if x.publishedTs = t
      then x :: l.filter (fun a => decide (a.publishedTs = t))
      else l.filter (fun a => decide (a.publishedTs = t)) := by
  induction l with
  | nil => by_cases hx : x.publishedTs = t <;> simp [insertDesc, hx]
  | cons y ys ih =>
    unfold insertDesc
    split
    · rename_i hlt
      by_cases hx : x.publishedTs = t
      · have hy : ¬ y.publishedTs = t := by omega
        simp [List.filter_cons, hx, hy, ih]
      · by_cases hy : y.publishedTs = t <;> simp [List.filter_cons, hx, hy, ih]
    · by_cases hx : x.publishedTs = t <;>
        by_cases hy : y.publishedTs = t <;> simp [List.filter_cons, hx, hy]

theorem sortByTsDesc_filter (l : List NewsItem) (t : Int) :
    (sortByTsDesc l).filter (fun a => decide (a.publishedTs = t)) =
      l.filter (fun a => decide (a.publishedTs = t)) := by
  induction l with
  | nil => rfl
  | cons x xs ih =>
    by_cases hx : x.publishedTs = t <;>
      simp [sortByTsDesc, insertDesc_filter, hx, ih, List.filter_cons]

theorem insertDesc_of_ge {x : NewsItem} {l : List NewsItem}
    (h : ∀ b ∈ l, tsGe x b) : insertDesc x l = x :: l := by
  cases l with
  | nil => rfl
  | cons y ys =>
    unfold insertDesc
    rw [if_neg (not_lt.mpr (h y (List.mem_cons_self y ys)))]

theorem sortByTsDesc_of_pairwise {l : List NewsItem} (h : l.Pairwise tsGe) :
    sortByTsDesc l = l := by
  induction l with
  | nil => rfl
  | cons x xs ih =>
    rcases List.pairwise_cons.mp h with ⟨hx, hxs⟩
    show insertDesc x (sortByTsDesc xs) = x :: xs
    rw [ih hxs, insertDesc_of_ge hx]

theorem dedupeGo_cons (seen : List String) (i : NewsItem) (rest : List NewsItem) :
    dedupeGo seen (i :: rest) =
      if i.link ∈ seen then dedupeGo seen rest
      else i :: dedupeGo (i.link :: seen) rest := rfl

theorem dedupeGo_not_mem_seen {l : List NewsItem} :
    ∀ {seen : List String}, ∀ x ∈ dedupeGo seen l, x.link ∉ seen := by
  induction l with
  | nil => intro seen x hx; simp [dedupeGo] at hx
  | cons i rest ih =>
    intro seen x hx
    unfold dedupeGo at hx
    split at hx
    · exact ih x hx
    · rename_i hnotmem
      rcases List.mem_cons.mp hx with rfl | hx'
      · exact hnotmem
      · have := ih x hx'
        intro hc
        exact this (List.mem_cons_of_mem _ hc)

theorem dedupeGo_pairwise (seen : List String) (l : List NewsItem) :
    (dedupeGo seen l).Pairwise (fun a b => a.link ≠ b.link) := by
  induction l generalizing seen with
  | nil => simp [dedupeGo]
  | cons i rest ih =>
    unfold dedupeGo
    split
    · exact ih seen
    · refine List.pairwise_cons.mpr ⟨?_, ih _⟩
      intro b hb hc
      exact dedupeGo_not_mem_seen b hb (hc ▸ List.mem_cons_self _ _)

theorem dedupeGo_congr {s1 s2 : List String} (h : ∀ a, a ∈ s1 ↔ a ∈ s2) :
    ∀ l : List NewsItem, dedupeGo s1 l = dedupeGo s2 l := by
  intro l
  induction l generalizing s1 s2 with
  | nil => rfl
  | cons i rest ih =>
    unfold dedupeGo
    by_cases hm : i.link ∈ s1
    · rw [if_pos hm, if_pos ((h _).mp hm), ih h]
    · rw [if_neg hm, if_neg (fun hc => hm ((h _).mpr hc))]
      congr 1
      exact ih (fun a => by simp [List.mem_cons, h a])

theorem dedupeGo_cons_seen (k : String) :
    ∀ (l : List NewsItem) (seen : List String),
      dedupeGo (k :: seen) l = dedupeGo seen (l.filter (fun y => y.link ≠ k)) := by
  intro l
  induction l with
  | nil => intro seen; rfl
  | cons i rest ih =>
    intro seen
    by_cases hik : i.link = k
    · have h1 : i.link ∈ k :: seen := by rw [hik]; exact List.mem_cons_self _ _
      rw [dedupeGo_cons, if_pos h1]
      rw [show (i :: rest).filter (fun y => y.link ≠ k) = rest.filter (fun y => y.link ≠ k) by
            simp [List.filter_cons, hik]]
      exact ih seen
    · rw [show (i :: rest).filter (fun y => y.link ≠ k) =
            i :: rest.filter (fun y => y.link ≠ k) by simp [List.filter_cons, hik]]
      by_cases hm : i.link ∈ seen
      · have h1 : i.link ∈ k :: seen := List.mem_cons_of_mem _ hm
        rw [dedupeGo_cons, if_pos h1, dedupeGo_cons, if_pos hm]
        exact ih seen
      · have h1 : i.link ∉ k :: seen := by
          intro hc
          rcases List.mem_cons.mp hc with hc' | hc'
          · exact hik hc'
          · exact hm hc'
        rw [dedupeGo_cons, if_neg h1, dedupeGo_cons, if_neg hm]
        congr 1
        calc dedupeGo (i.link :: k :: seen) rest
            = dedupeGo (k :: i.link :: seen) rest := by
              exact dedupeGo_congr (fun a => by
                simp only [List.mem_cons]
                constructor <;> (intro hh; tauto)) rest
          _ = dedupeGo (i.link :: seen) (rest.filter (fun y => y.link ≠ k)) := ih _

theorem dedupeByLink_cons (x : NewsItem) (l : List NewsItem) :
    dedupeByLink (x :: l) = x :: dedupeByLink (l.filter (fun y => y.link ≠ x.link)) := by
  show dedupeGo [] (x :: l) = _
  rw [dedupeGo_cons, if_neg (List.not_mem_nil _), dedupeGo_cons_seen x.link l []]
  rfl

theorem enrichImage_fields (h : Host) (html : String) (item : NewsItem) :
    (enrichImage h html item).title = item.title ∧
    (enrichImage h html item).link = item.link ∧
    (enrichImage h html item).id = item.id ∧
    (enrichImage h html item).sourceId = item.sourceId ∧
    (enrichImage h html item).sourceName = item.sourceName ∧
    (enrichImage h html item).categories = item.categories ∧
    (enrichImage h html item).excerpt = item.excerpt ∧
    (enrichImage h html item).published = item.published ∧
    (enrichImage h html item).publishedTs = item.publishedTs := by
  unfold enrichImage
  split <;> simp

theorem enrichDate_fields (html : String) (item1 : NewsItem) :
    (enrichDate html item1).title = item1.title ∧
    (enrichDate html item1).link = item1.link ∧
    (enrichDate html item1).id = item1.id ∧
    (enrichDate html item1).sourceId = item1.sourceId ∧
    (enrichDate html item1).sourceName = item1.sourceName ∧
    (enrichDate html item1).categories = item1.categories ∧
    (enrichDate html item1).excerpt = item1.excerpt ∧
    (enrichDate html item1).image = item1.image := by
  unfold enrichDate
  split <;> simp

theorem enrichWith_fields (h : Host) (ni nd : Bool) (html : String) (item : NewsItem) :
    (enrichWith h ni nd html item).title = item.title ∧
    (enrichWith h ni nd html item).link = item.link ∧
    (enrichWith h ni nd html item).id = item.id ∧
    (enrichWith h ni nd html item).sourceId = item.sourceId ∧
    (enrichWith h ni nd html item).sourceName = item.sourceName ∧
    (enrichWith h ni nd html item).categories = item.categories ∧
    (enrichWith h ni nd html item).excerpt = item.excerpt := by
  have hI := enrichImage_fields h html item
  have hD := enrichDate_fields html (if ni then enrichImage h html item else item)
  unfold enrichWith
  cases nd <;> cases ni <;>
    refine ⟨?_, ?_, ?_, ?_, ?_, ?_, ?_⟩ <;> simp_all

theorem enrichOne_fields (h : Host) (fp : String → Option String) (item : NewsItem) :
    (enrichOne h fp item).title = item.title ∧
    (enrichOne h fp item).link = item.link ∧
    (enrichOne h fp item).id = item.id ∧
    (enrichOne h fp item).sourceId = item.sourceId ∧
    (enrichOne h fp item).sourceName = item.sourceName ∧
    (enrichOne h fp item).categories = item.categories ∧
    (enrichOne h fp item).excerpt = item.excerpt := by
  unfold enrichOne
  split
  · exact ⟨rfl, rfl, rfl, rfl, rfl, rfl, rfl⟩
  · split
    · exact ⟨rfl, rfl, rfl, rfl, rfl, rfl, rfl⟩
    · exact enrichWith_fields h _ _ _ item

theorem enrichOne_link (h : Host) (fp : String → Option String) (item : NewsItem) :
    (enrichOne h fp item).link = item.link :=
  (enrichOne_fields h fp item).2.1

theorem enrichOne_none (h : Host) (fp : String → Option String) (item : NewsItem)
    (hf : fp item.link = none) : enrichOne h fp item = item := by
  unfold enrichOne
  split
  · rfl
  · rw [hf]

theorem ingestAll_errors (h : Host) (fo : String → Except String ParsedFeed)
    (feeds : List FeedSource) :
    (ingestAll h fo feeds).2 = feeds.filterMap (fun f =>
      match fo f.url with
      | Except.error e => some ⟨f.id, f.name, f.url, e⟩
      | Except.ok _ => none) := by
  induction feeds with
  | nil => rfl
  | cons f rest ih =>
    unfold ingestAll
    cases hfo : fo f.url <;> simp [hfo, List.filterMap_cons, ih]

theorem ingestAll_items (h : Host) (fo : String → Except String ParsedFeed)
    (feeds : List FeedSource) :
    (ingestAll h fo feeds).1 = (feeds.map (fun f =>
      match fo f.url with
      | Except.ok p => (p.items.getD []).filterMap (processRaw h f)
      | Except.error _ => [])).flatten := by
  induction feeds with
  | nil => rfl
  | cons f rest ih =>
    unfold ingestAll
    cases hfo : fo f.url <;> simp [hfo, ih]

theorem enrichStage_map_link (h : Host) (fp : String → Option String)
    (l : List NewsItem) :
    (enrichStage h fp l).map (fun a => a.link) = l.map (fun a => a.link) := by
  unfold enrichStage
  rw [asyncPool_eq_map]
  rw [List.map_append, List.map_map]
  have : ((fun a : NewsItem => a.link) ∘ enrichOne h fp) = fun a => a.link := by
    funext a
    exact enrichOne_link h fp a
  rw [this, ← List.map_append, List.take_append_drop]

theorem asyncPoolInflight_throttled_le (limit : Nat) (sched : Nat → Nat)
    (hl : 1 ≤ limit) :
    ∀ (k i c : Nat), c + 1 ≤ limit →
      ∀ x ∈ asyncPoolInflight limit true sched k i c, x ≤ limit := by
  intro k
  induction k with
  | zero => intro i c _ x hx; simp [asyncPoolInflight] at hx
  | succ k ih =>
    intro i c hc x hx
    unfold asyncPoolInflight at hx
    rcases List.mem_cons.mp hx with rfl | hx'
    · exact hc
    · refine ih (i + 1) _ ?_ x hx'
      by_cases hth : limit ≤ c + 1
      · have hd : 1 ≤ min (c + 1) (max (sched i) 1) :=
          le_min (by omega) (le_max_right _ _)
        have hdle : min (c + 1) (max (sched i) 1) ≤ c + 1 := min_le_left _ _
        simp only [Bool.true_and, decide_eq_true_eq] at hx' ⊢
        rw [if_pos hth] at hx' ⊢
        omega
      · simp only [Bool.true_and, decide_eq_true_eq] at hx' ⊢
        rw [if_neg hth] at hx' ⊢
        omega

theorem asyncPoolInflight_unthrottled_le (limit : Nat) (sched : Nat → Nat) :
    ∀ (k i c : Nat), ∀ x ∈ asyncPoolInflight limit false sched k i c, x ≤ c + k := by
  intro k
  induction k with
  | zero => intro i c x hx; simp [asyncPoolInflight] at hx
  | succ k ih =>
    intro i c x hx
    unfold asyncPoolInflight at hx
    simp only [Bool.false_and, if_false] at hx
    rcases List.mem_cons.mp hx with rfl | hx'
    · omega
    · have := ih (i + 1) (c + 1) x hx'
      omega

theorem asyncPoolInflight_reaches (limit : Nat) :
    ∀ (k i c : Nat), c + 1 ≤ limit → limit ≤ c + k →
      limit ∈ asyncPoolInflight limit true (fun _ => 1) k i c := by
  intro k
  induction k with
  | zero => intro i c h1 h2; omega
  | succ k ih =>
    intro i c h1 h2
    unfold asyncPoolInflight
    by_cases heq : c + 1 = limit
    · exact heq ▸ List.mem_cons_self _ _
    · have hlt : c + 1 < limit := lt_of_le_of_ne h1 heq
      refine List.mem_cons_of_mem _ ?_
      have hcond : ¬ limit ≤ c + 1 := by omega
      simp only [Bool.true_and, decide_eq_true_eq]
      rw [if_neg hcond]
      exact ih (i + 1) (c + 1) (by omega) (by omega)

theorem jsLen_append (a b : String) : jsLen (a ++ b) = jsLen a + jsLen b := by
  simp [jsLen, String.data_append]

theorem jsLen_jsSlice_le (s : String) (n : Nat) : jsLen (jsSlice s n) ≤ n := by
  simp only [jsLen, jsSlice, List.length_take]
  exact min_le_left _ _

theorem matchesPre_self_append (pat rest : List Char) :
    matchesPre pat (pat ++ rest) = true := by
  induction pat with
  | nil => rfl
  | cons c cs ih => simp [matchesPre, ih]

theorem occursIn_self_append (pat rest : List Char) :
    occursIn pat (pat ++ rest) = true := by
  cases pat with
  | nil => cases rest <;> simp [occursIn, matchesPre]
  | cons c cs =>
    simp only [occursIn, Bool.or_eq_true]
    exact Or.inl (matchesPre_self_append (c :: cs) rest)

theorem occursIn_append_right (pat l1 l2 : List Char) (h : occursIn pat l2 = true) :
    occursIn pat (l1 ++ l2) = true := by
  induction l1 with
  | nil => simpa
  | cons c cs ih => simp [occursIn, ih]

theorem processRaw_publishedTs (h : Host) (feed : FeedSource) (it : RawItem)
    (ni : NewsItem) (hp : processRaw h feed it = some ni) :
    ni.publishedTs = toTimestamp (pickPublished it) := by
  unfold processRaw at hp
  split at hp
  · exact absurd hp (by simp)
  · split at hp
    · exact absurd hp (by simp)
    · have := Option.some.inj hp
      rw [← this]
      rfl

/-- C7: `pickExcerpt` always yields at most 240 characters, and is exactly
the stripped, whitespace-collapsed text when that text is at most 240
characters, and its first 237 characters followed by one ellipsis character
otherwise. -/
theorem c7_excerpt_bounded (it : RawItem) :
    jsLen (pickExcerpt it) ≤ 240 ∧
    pickExcerpt it =
      (if 240 < jsLen (stripHtml (htmlOf it))
       then jsSlice (stripHtml (htmlOf it)) 237 ++ "…"
       else stripHtml (htmlOf it)) := by
  unfold pickExcerpt
  by_cases h0 : stripHtml (htmlOf it) = ""
  · rw [if_pos h0]
    constructor
    · simp [jsLen]
    · rw [if_neg (by simp [h0, jsLen]), h0]
  · rw [if_neg h0]
    by_cases h1 : 240 < jsLen (stripHtml (htmlOf it))
    · rw [if_pos h1]
      refine ⟨?_, rfl⟩
      rw [jsLen_append]
      have h2 : jsLen (jsSlice (stripHtml (htmlOf it)) 237) ≤ 237 := jsLen_jsSlice_le _ _
      have h3 : jsLen "…" = 1 := by decide
      omega
    · rw [if_neg h1]
      exact ⟨by omega, rfl⟩

/-- C10: `asyncPool` returns a list of the same length as its input whose
entry at every position `i` is `fn` applied to the input's entry at `i`,
independently of the concurrency limit (the promises are pushed onto `ret`
in input order and `Promise.all` resolves positionally). -/
theorem c10_asyncPool_positional (limit : Nat) (arr : List α) (fn : α → β) :
    (asyncPool limit arr fn).length = arr.length ∧
    ∀ i : Nat, (asyncPool limit arr fn)[i]? = arr[i]?.map fn := by
  rw [asyncPool_eq_map]
  exact ⟨List.length_map _ _, fun i => List.getElem?_map fn arr i⟩

/-- C8: under the scheduling model of `asyncPool`, with the configured cap
`ENRICH_CONCURRENCY`, the number of in-flight tasks never exceeds the cap,
for every input length and every adversarial completion schedule; and the
pool is genuinely parallel: when at least `ENRICH_CONCURRENCY` candidates
exist, the in-flight count actually reaches the cap (so it is neither
one-at-a-time nor unbounded). -/
theorem c8_concurrency_cap :
    (∀ (n : Nat) (sched : Nat → Nat), ∀ x ∈ asyncPoolTrace ENRICH_CONCURRENCY n sched,
        x ≤ ENRICH_CONCURRENCY) ∧
    (∀ n : Nat, ENRICH_CONCURRENCY ≤ n →
        ENRICH_CONCURRENCY ∈ asyncPoolTrace ENRICH_CONCURRENCY n (fun _ => 1)) := by
  constructor
  · intro n sched x hx
    unfold asyncPoolTrace at hx
    by_cases hn : ENRICH_CONCURRENCY ≤ n
    · rw [decide_eq_true hn] at hx
      exact asyncPoolInflight_throttled_le ENRICH_CONCURRENCY sched (by decide) n 0 0
        (by decide) x hx
    · rw [decide_eq_false hn] at hx
      have h1 := asyncPoolInflight_unthrottled_le ENRICH_CONCURRENCY sched n 0 0 x hx
      have h2 : n < ENRICH_CONCURRENCY := not_le.mp hn
      omega
  · intro n hn
    unfold asyncPoolTrace
    rw [decide_eq_true hn]
    exact asyncPoolInflight_reaches ENRICH_CONCURRENCY n 0 0 (by decide) (by omega)

/-- C5: enrichment never changes `title`, `link`, `id`, `sourceId`,
`sourceName`, `categories` or `excerpt` (only `image`, `published` and
`publishedTs` can change); and an item with a non-empty, non-junk image and
a non-zero timestamp is returned unchanged for every fetch oracle — the
result does not depend on the oracle at all, modelling that no network
call happens. -/
theorem c5_enrich_frame (h : Host) (fp : String → Option String) (item : NewsItem) :
    ((enrichOne h fp item).title = item.title ∧
     (enrichOne h fp item).link = item.link ∧
     (enrichOne h fp item).id = item.id ∧
     (enrichOne h fp item).sourceId = item.sourceId ∧
     (enrichOne h fp item).sourceName = item.sourceName ∧
     (enrichOne h fp item).categories = item.categories ∧
     (enrichOne h fp item).excerpt = item.excerpt) ∧
    (item.image ≠ "" → isJunkImage item.image = false → item.publishedTs ≠ 0 →
      enrichOne h fp item = item) := by
  refine ⟨enrichOne_fields h fp item, ?_⟩
  intro h1 h2 h3
  have hcond : (!needsImageOf item && !needsDateOf item) = true := by
    simp [needsImageOf, needsDateOf, h1, h2, h3]
  unfold enrichOne
  rw [hcond]
  simp

/-- C6: a failed article-page fetch (the oracle returns `none`, covering
timeout/abort, non-success status and extraction never being reached)
leaves the item exactly as it was; and the pipeline's error list is exactly
the ingestion error list — enrichment contributes no error records for any
fetch oracle, and no exception escapes (every function is total). -/
theorem c6_enrich_failure_silent (h : Host) (fo : String → Except String ParsedFeed)
    (fp : String → Option String) (feeds : List FeedSource) (item : NewsItem) :
    (fp item.link = none → enrichOne h fp item = item) ∧
    (pipelineA h fo fp feeds).2 = (ingestAll h fo feeds).2 := by
  exact ⟨enrichOne_none h fp item, rfl⟩

theorem pipelineA_pairwise_links (h : Host) (fo : String → Except String ParsedFeed)
    (fp : String → Option String) (feeds : List FeedSource) :
    (pipelineA h fo fp feeds).1.Pairwise (fun a b => a.link ≠ b.link) := by
  have hsym : Symmetric (fun a b : NewsItem => a.link ≠ b.link) := fun a b hab => hab.symm
  have h1 : (dedupeByLink (ingestAll h fo feeds).1).Pairwise (fun a b => a.link ≠ b.link) :=
    dedupeGo_pairwise [] _
  have h2 : (sortByTsDesc (dedupeByLink (ingestAll h fo feeds).1)).Pairwise
      (fun a b => a.link ≠ b.link) :=
    ((sortByTsDesc_perm _).pairwise_iff fun hab => hsym hab).mpr h1
  have h2m : ((sortByTsDesc (dedupeByLink (ingestAll h fo feeds).1)).map
      (fun a => a.link)).Pairwise (fun a b => a ≠ b) := List.pairwise_map.mpr h2
  have h3m : ((enrichStage h fp (sortByTsDesc (dedupeByLink (ingestAll h fo feeds).1))).map
      (fun a => a.link)).Pairwise (fun a b => a ≠ b) := by
    rw [enrichStage_map_link]; exact h2m
  have h3 : (enrichStage h fp (sortByTsDesc (dedupeByLink
      (ingestAll h fo feeds).1))).Pairwise (fun a b => a.link ≠ b.link) :=
    List.pairwise_map.mp h3m
  have h4 : (sortByTsDesc (enrichStage h fp (sortByTsDesc (dedupeByLink
      (ingestAll h fo feeds).1)))).Pairwise (fun a b => a.link ≠ b.link) :=
    ((sortByTsDesc_perm _).pairwise_iff fun hab => hsym hab).mpr h3
  exact h4.sublist (List.take_sublist _ _)

/-- C2: no two items of the final output share a link (for every host, feed
oracle, page oracle and feed list); and the dedupe step keeps exactly the
first item encountered per link, verbatim with all its fields, discarding
every later item with the same link, as expressed by its recursion
equation. -/
theorem c2_dedupe_first_wins (h : Host) (fo : String → Except String ParsedFeed)
    (fp : String → Option String) (feeds : List FeedSource) :
    (pipelineA h fo fp feeds).1.Pairwise (fun a b => a.link ≠ b.link) ∧
    dedupeByLink [] = [] ∧
    (∀ (x : NewsItem) (l : List NewsItem),
      dedupeByLink (x :: l) = x :: dedupeByLink (l.filter (fun y => y.link ≠ x.link))) :=
  ⟨pipelineA_pairwise_links h fo fp feeds, rfl, dedupeByLink_cons⟩

/-- C4: the pipeline's error list is exactly one `IngestError` per failing
feed source (with its id, name, url and message) in feed order, the item
list is exactly the concatenation of the successfully ingested feeds'
items (a failing source contributes zero items, the remaining sources are
all still processed, and ingestion is total — never fatal); and a
non-success HTTP status makes `fetchXml` produce an error message carrying
a body snippet of at most 160 characters. -/
theorem c4_feed_failure_isolated (h : Host) (fo : String → Except String ParsedFeed)
    (feeds : List FeedSource) :
    ((ingestAll h fo feeds).2 = feeds.filterMap (fun f =>
        match fo f.url with
        | Except.error e => some ⟨f.id, f.name, f.url, e⟩
        | Except.ok _ => none) ∧
     (ingestAll h fo feeds).1 = (feeds.map (fun f =>
        match fo f.url with
        | Except.ok p => (p.items.getD []).filterMap (processRaw h f)
        | Except.error _ => [])).flatten) ∧
    (∀ (url : String) (res : HttpResponse), res.ok = false →
      ∃ m, fetchXml url res = Except.error m ∧
        jsLen (jsSlice (optS res.bodyText) 160) ≤ 160 ∧
        (optS res.bodyText ≠ "" →
          occursIn (jsSlice (optS res.bodyText) 160).data m.data = true)) := by
  refine ⟨⟨ingestAll_errors h fo feeds, ingestAll_items h fo feeds⟩, ?_⟩
  intro url res hok
  refine ⟨"Fetch failed " ++ toString res.status ++ " " ++ res.statusText ++
      " for " ++ url ++
      (if optS res.bodyText = "" then ""
       else ": " ++ jsSlice (optS res.bodyText) 160), ?_, jsLen_jsSlice_le _ _, ?_⟩
  · simp [fetchXml, hok]
  · intro hb
    rw [if_neg hb]
    simp only [String.data_append]
    apply occursIn_append_right
    apply occursIn_append_right
    simpa using occursIn_self_append (jsSlice (optS res.bodyText) 160).data []

/-- Concrete host for witnesses: the URL constructor always throws (so
`normalizeUrl` falls back to the cleaned string) and the digest is the
identity. -/
def hostId : Host := ⟨fun _ => none, fun _ _ => none, fun s => s⟩

/-- Concrete feed source for witnesses. -/
def feedF : FeedSource := ⟨"f", "F", "https://feed"⟩

/-- A raw item with only a link and no date: `publishedTs` ends up `0`. -/
def rawW : RawItem := { link := some "https://w" }

/-- C3 (amended): `toTimestamp` is total (it is a function, never throws)
and an item's `publishedTs` is `0` whenever no parseable date string was
found; but the parse result is returned unclamped, so `publishedTs` is
negative for pre-1970 dates and is also `0` for a perfectly usable date
that denotes the epoch instant itself — "0 exactly when no usable date"
and "never negative" both fail. -/
theorem c3_amended_timestamp (h : Host) (feed : FeedSource) (it : RawItem)
    (ni : NewsItem) (hp : processRaw h feed it = some ni) :
    (jsDateParse (pickPublished it) = none → ni.publishedTs = 0) ∧
    (∀ t : Int, jsDateParse (pickPublished it) = some t → ni.publishedTs = t) := by
  have hts := processRaw_publishedTs h feed it ni hp
  constructor
  · intro hn
    rw [hts]
    unfold toTimestamp
    rw [hn]
  · intro t ht
    rw [hts]
    unfold toTimestamp
    rw [ht]

theorem c3_witness :
    processRaw hostId feedF rawW = some (mkItemA hostId feedF rawW) ∧
    jsDateParse (pickPublished rawW) = none ∧
    (mkItemA hostId feedF rawW).publishedTs = 0 :=
  ⟨by decide, by decide,
    (c3_amended_timestamp hostId feedF rawW (mkItemA hostId feedF rawW) (by decide)).1
      (by decide)⟩

/-- C3 counterexample: a parseable pre-1970 date produces a negative
`publishedTs` (refuting "never negative"), and the usable date
`1970-01-01` parses successfully yet produces `publishedTs = 0` (refuting
"0 exactly when no usable date was found"). -/
theorem c3_counterexample :
    toTimestamp "1969-12-31" = -86400000 ∧
    toTimestamp "1970-01-01" = 0 ∧
    jsDateParse "1970-01-01" = some 0 := by
  refine ⟨by decide, by decide, by decide⟩

/-- C1 (amended): the final output is sorted by `publishedTs` descending
(so `publishedTs = 0` items come after every positive-timestamp item but
before any negative-timestamp item), and among items with equal
`publishedTs` the relative order equals their order in the list fed to the
final sort — the enriched head concatenated with the untouched tail — of
which the truncated output's equal-timestamp runs are prefixes.  The
original first-occurrence-merge-order tie claim fails once enrichment
changes a timestamp (see the counterexample). -/
theorem c1_amended_ranking (h : Host) (fo : String → Except String ParsedFeed)
    (fp : String → Option String) (feeds : List FeedSource) :
    (pipelineA h fo fp feeds).1.Pairwise tsGe ∧
    (∀ t : Int,
      (pipelineA h fo fp feeds).1.filter (fun a => decide (a.publishedTs = t)) =
        ((enrichStage h fp (sortByTsDesc (dedupeByLink (ingestAll h fo feeds).1))).filter
            (fun a => decide (a.publishedTs = t))).take
          (((pipelineA h fo fp feeds).1.filter
            (fun a => decide (a.publishedTs = t))).length)) := by
  constructor
  · exact (sortByTsDesc_pairwise _).sublist (List.take_sublist _ _)
  · intro t
    rw [show (pipelineA h fo fp feeds).1 = (sortByTsDesc (enrichStage h fp
        (sortByTsDesc (dedupeByLink (ingestAll h fo feeds).1)))).take MAX_ITEMS from rfl]
    have hfull :
        (((sortByTsDesc (enrichStage h fp (sortByTsDesc (dedupeByLink
            (ingestAll h fo feeds).1)))).take MAX_ITEMS).filter
              (fun a => decide (a.publishedTs = t))) ++
        (((sortByTsDesc (enrichStage h fp (sortByTsDesc (dedupeByLink
            (ingestAll h fo feeds).1)))).drop MAX_ITEMS).filter
              (fun a => decide (a.publishedTs = t))) =
        (enrichStage h fp (sortByTsDesc (dedupeByLink
            (ingestAll h fo feeds).1))).filter (fun a => decide (a.publishedTs = t)) := by
      rw [← List.filter_append, List.take_append_drop, sortByTsDesc_filter]
    rw [← hfull, List.take_left]

/-- Concrete counterexample input for C1: four items from one feed — `X`
(no feed date, article page provides `1970-01-02`), `Y` (feed date
`1970-01-02`), `Z` (feed date `1969-12-31`, i.e. a negative timestamp) and
`W` (no date, page fetch fails). -/
def rawC1X : RawItem :=
  { link := some "https://x", title := some "X",
    mediaContent := some { attrUrl := some "https://img/x.jpg" } }

/-- Item `Y` of the C1 counterexample. -/
def rawC1Y : RawItem :=
  { link := some "https://y", title := some "Y", isoDate := some "1970-01-02",
    mediaContent := some { attrUrl := some "https://img/y.jpg" } }

/-- Item `Z` of the C1 counterexample (pre-1970 date). -/
def rawC1Z : RawItem :=
  { link := some "https://z", title := some "Z", isoDate := some "1969-12-31",
    mediaContent := some { attrUrl := some "https://img/z.jpg" } }

/-- Item `W` of the C1 counterexample (dateless, enrichment fails). -/
def rawC1W : RawItem :=
  { link := some "https://w", title := some "W",
    mediaContent := some { attrUrl := some "https://img/w.jpg" } }

/-- Feed oracle of the C1 counterexample: one feed with items X, Y, Z, W. -/
def foC1 : String → Except String ParsedFeed :=
  fun _ => Except.ok { items := some [rawC1X, rawC1Y, rawC1Z, rawC1W] }

/-- Page oracle of the C1 counterexample: only X's article page resolves,
with an `article:published_time` meta tag. -/
def pageC1 : String → Option String :=
  fun u => if u = "https://x"
    then some "<meta property=\"article:published_time\" content=\"1970-01-02\">"
    else none

/-- Feed list of the C1 counterexample. -/
def feedsC1 : List FeedSource := [feedF]

/-- C1 counterexample: on this run the final output is `[Y, X, W, Z]` with
timestamps `[86400000, 86400000, 0, -86400000]`.  The zero-timestamp item
`W` appears before the non-zero (negative) item `Z`, refuting "every item
with `publishedTs = 0` appears after every item with a non-zero
`publishedTs`"; and the equal-timestamp pair comes out as `Y` before `X`
although the dedup/merge order was `X` before `Y` (enrichment filled X's
date after the first ranking), refuting the first-occurrence tie rule. -/
theorem c1_counterexample :
    ((pipelineA hostId foC1 pageC1 feedsC1).1.map (fun a => a.publishedTs) =
      [86400000, 86400000, 0, -86400000]) ∧
    ((pipelineA hostId foC1 pageC1 feedsC1).1.map (fun a => a.title) =
      ["Y", "X", "W", "Z"]) ∧
    ((dedupeByLink (ingestAll hostId foC1 feedsC1).1).map (fun a => a.title) =
      ["X", "Y", "Z", "W"]) ∧
    ¬ ((pipelineA hostId foC1 pageC1 feedsC1).1.Pairwise
        (fun a b => a.publishedTs = 0 → b.publishedTs = 0)) := by
  refine ⟨by decide, by decide, by decide, by decide⟩

/-- A string that the entity decoder leaves unchanged (no HTML entities),
up to the trim both normalisers apply. -/
def noEntities (s : String) : Prop := decodeUrlEntities (jsTrim s) = jsTrim s

/-- A host URL parser that ignores surrounding whitespace, as the WHATWG
`URL` constructor does (it strips leading/trailing C0 controls and
spaces); this is what reconciles variant A's trim-before-parse with
variant B's parse-raw. -/
def trimStable (h : Host) : Prop := ∀ s, h.urlParse (jsTrim s) = h.urlParse s

/-- A raw item all of whose URL-normalised strings are entity-free. -/
def cleanRaw (it : RawItem) : Prop :=
  noEntities (strOr (optS it.link) (optS it.guid)) ∧
  (∀ c, pickImageCand it = some c → noEntities c)

theorem normalizeUrl_eq (h : Host) (hts : trimStable h) (u : String)
    (hu : noEntities u) : normalizeUrlA h u = normalizeUrlB h u := by
  unfold normalizeUrlA normalizeUrlB
  rw [hu, hts u]

theorem processRaw_eq_B (h : Host) (hts : trimStable h) (feed : FeedSource)
    (it : RawItem) (hclean : cleanRaw it) (hmondo : feed.id ≠ "mondosonoro")
    (hjunk : isJunkImage (pickImage (normalizeUrlB h) it) = false) :
    processRaw h feed it = processRawB h feed it := by
  have hlink : linkOf h normalizeUrlA it = linkOf h normalizeUrlB it := by
    unfold linkOf
    exact normalizeUrl_eq h hts _ hclean.1
  have himg : pickImage (normalizeUrlA h) it = pickImage (normalizeUrlB h) it := by
    rw [pickImage_eq_cand, pickImage_eq_cand]
    cases hc : pickImageCand it with
    | none => rfl
    | some c => exact normalizeUrl_eq h hts c (hclean.2 c hc)
  unfold processRaw processRawB
  rw [hlink]
  split
  · rfl
  · rw [if_neg (fun hcon => hmondo hcon.1)]
    have : mkItemA h feed it = mkItemB h feed it := by
      unfold mkItemA mkItemB
      rw [hlink, himg, hjunk]
      simp
    rw [this]

theorem ingestAll_eq_B (h : Host) (hts : trimStable h)
    (fo : String → Except String ParsedFeed) (feeds : List FeedSource)
    (hm : ∀ f ∈ feeds, f.id ≠ "mondosonoro")
    (hcl : ∀ f ∈ feeds, ∀ p, fo f.url = Except.ok p → ∀ it ∈ p.items.getD [],
      cleanRaw it ∧ isJunkImage (pickImage (normalizeUrlB h) it) = false) :
    ingestAll h fo feeds = ingestAllB h fo feeds := by
  induction feeds with
  | nil => rfl
  | cons f rest ih =>
    unfold ingestAll ingestAllB
    rw [ih (fun g hg => hm g (List.mem_cons_of_mem f hg))
        (fun g hg => hcl g (List.mem_cons_of_mem f hg))]
    cases hfo : fo f.url with
    | error e => rfl
    | ok p =>
      have hcongr : (p.items.getD []).filterMap (processRaw h f) =
          (p.items.getD []).filterMap (processRawB h f) := by
        refine List.filterMap_congr ?_
        intro it hit
        have hx := hcl f (List.mem_cons_self f rest) p hfo it hit
        exact processRaw_eq_B h hts f it hx.1 (hm f (List.mem_cons_self f rest)) hx.2
      simp only [hcongr]

/-- C9 (amended): the two variants agree on every run in which enrichment
is disabled (every page fetch fails), no URL string carries an HTML
entity, the host URL parser is whitespace-stable, no feed is the
`mondosonoro` source, and no ingested image is a junk image.  The last two
hypotheses are forced by two differences beyond enrichment and
entity-decoding that the original claim overlooks: only variant A has the
`mondosonoro` "discos" inclusion filter and the at-ingest junk-image
replacement (see the counterexample). -/
theorem c9_amended_equiv (h : Host) (fo : String → Except String ParsedFeed)
    (fp : String → Option String) (feeds : List FeedSource)
    (hts : trimStable h) (hfp : ∀ u, fp u = none)
    (hm : ∀ f ∈ feeds, f.id ≠ "mondosonoro")
    (hcl : ∀ f ∈ feeds, ∀ p, fo f.url = Except.ok p → ∀ it ∈ p.items.getD [],
      cleanRaw it ∧ isJunkImage (pickImage (normalizeUrlB h) it) = false) :
    pipelineA h fo fp feeds = pipelineB h fo feeds := by
  have hing : ingestAll h fo feeds = ingestAllB h fo feeds :=
    ingestAll_eq_B h hts fo feeds hm hcl
  have hmapid : ∀ l : List NewsItem, l.map (enrichOne h fp) = l := by
    intro l
    induction l with
    | nil => rfl
    | cons a as ihl => simp [enrichOne_none h fp a (hfp _), ihl]
  have henr : ∀ l : List NewsItem, enrichStage h fp l = l := by
    intro l
    unfold enrichStage
    rw [asyncPool_eq_map, hmapid, List.take_append_drop]
  unfold pipelineA pipelineB
  rw [hing, henr, sortByTsDesc_of_pairwise (sortByTsDesc_pairwise _)]

/-- Clean single-item input used by the C9 witness. -/
def rawV : RawItem := { link := some "https://v", title := some "V" }

/-- Feed oracle of the C9 witness. -/
def foV : String → Except String ParsedFeed :=
  fun _ => Except.ok { items := some [rawV] }

theorem c9_witness :
    trimStable hostId ∧
    pipelineA hostId foV (fun _ => none) [feedF] = pipelineB hostId foV [feedF] := by
  refine ⟨fun s => rfl, ?_⟩
  refine c9_amended_equiv hostId foV (fun _ => none) [feedF] (fun s => rfl)
    (fun u => rfl) ?_ ?_
  · intro f hf
    rcases List.mem_singleton.mp hf with rfl
    decide
  · intro f hf p hp it hit
    unfold foV at hp
    have hp' := Except.ok.inj hp
    subst hp'
    simp only [Option.getD, List.mem_singleton] at hit
    subst hit
    refine ⟨⟨?_, ?_⟩, ?_⟩
    · show decodeUrlEntities (jsTrim (strOr (optS rawV.link) (optS rawV.guid))) =
        jsTrim (strOr (optS rawV.link) (optS rawV.guid))
      decide
    · intro c hc
      rw [show pickImageCand rawV = none from by decide] at hc
      exact absurd hc (by simp)
    · decide

/-- Raw item whose only image candidate is a junk emoji-sprite URL; it
contains no HTML entities and needs no enrichment semantics to expose the
divergence. -/
def rawJ : RawItem :=
  { link := some "https://j", title := some "J",
    enclosureUrl := some "https://s.w.org/images/core/emoji/a.png" }

/-- Feed oracle of the C9 counterexample. -/
def foJ : String → Except String ParsedFeed :=
  fun _ => Except.ok { items := some [rawJ] }

/-- C9 counterexample: with enrichment disabled (every page fetch fails)
and an entity-free input, the two variants still differ — variant A
replaces the junk image by `""` at ingestion while variant B keeps it —
refuting "the two variants differ only in whether enrichment and URL
entity-decoding are performed".  (The `mondosonoro` filter is a second
such difference.) -/
theorem c9_counterexample :
    ((pipelineA hostId foJ (fun _ => none) [feedF]).1.map (fun a => a.image) = [""]) ∧
    ((pipelineB hostId foJ [feedF]).1.map (fun a => a.image) =
      ["https://s.w.org/images/core/emoji/a.png"]) ∧
    decodeUrlEntities (jsTrim "https://s.w.org/images/core/emoji/a.png") =
      jsTrim "https://s.w.org/images/core/emoji/a.png" ∧
    decodeUrlEntities (jsTrim "https://j") = jsTrim "https://j" ∧
    pipelineA hostId foJ (fun _ => none) [feedF] ≠ pipelineB hostId foJ [feedF] := by
  refine ⟨by decide, by decide, by decide, by decide, by decide⟩

/-- A failed HTTP response used by the C4 witness. -/
def resC : HttpResponse := ⟨false, 500, "Server Error", some "oops"⟩

theorem c4_witness :
    resC.ok = false ∧
    (∃ m, fetchXml "https://u" resC = Except.error m ∧
      jsLen (jsSlice (optS resC.bodyText) 160) ≤ 160 ∧
      (optS resC.bodyText ≠ "" →
        occursIn (jsSlice (optS resC.bodyText) 160).data m.data = true)) :=
  ⟨rfl,
   (c4_feed_failure_isolated hostId (fun _ => Except.error "boom") []).2 "https://u" resC rfl⟩

/-- A fully-populated item (non-junk image, non-zero timestamp) used by the
C5 witness. -/
def itemG : NewsItem :=
  ⟨"id1", "T", "https://g", "1970-01-02", 86400000, "f", "F", [], "https://img/g.jpg", ""⟩

/-- A page oracle that would offer a different image, to show it is ignored. -/
def pageG : String → Option String :=
  fun _ => some "<meta property=\"og:image\" content=\"https://other.jpg\">"

theorem c5_witness :
    (itemG.image ≠ "" ∧ isJunkImage itemG.image = false ∧ itemG.publishedTs ≠ 0) ∧
    enrichOne hostId pageG itemG = itemG :=
  ⟨⟨by decide, by decide, by decide⟩,
   (c5_enrich_frame hostId pageG itemG).2 (by decide) (by decide) (by decide)⟩

/-- An enrichment-needing item (empty image, zero timestamp) used by the C6
witness. -/
def itemN : NewsItem := ⟨"id2", "N", "https://n", "", 0, "f", "F", [], "", ""⟩

theorem c6_witness :
    (fun _ : String => (none : Option String)) itemN.link = none ∧
    enrichOne hostId (fun _ => none) itemN = itemN ∧
    (pipelineA hostId foV (fun _ => none) [feedF]).2 = (ingestAll hostId foV [feedF]).2 := by
  have hc := c6_enrich_failure_silent hostId foV (fun _ => none) [feedF] itemN
  exact ⟨rfl, hc.1 rfl, hc.2⟩

theorem c8_witness :
    (3 ∈ asyncPoolTrace ENRICH_CONCURRENCY 5 (fun _ => 1) ∧ 3 ≤ ENRICH_CONCURRENCY) ∧
    (ENRICH_CONCURRENCY ≤ 5 ∧
      ENRICH_CONCURRENCY ∈ asyncPoolTrace ENRICH_CONCURRENCY 5 (fun _ => 1)) :=
  ⟨⟨by decide, c8_concurrency_cap.1 5 (fun _ => 1) 3 (by decide)⟩,
   ⟨by decide, c8_concurrency_cap.2 5 (by decide)⟩⟩
